import Mathlib

/-!
Verification of the Coda V2 segmented dataset store client
(`coda_v2_python_client/firebase_client_wrapper.py`).

The Firestore-backed state is embedded shallowly: a `Segment` holds the
documents of one segment (its message collection, code-scheme collection,
optional user-id list and optional messages-metrics document), and a
`Dataset` is the ordered list of its segments (segment 1 first; the stored
segment-count record equals the number of segments).  Timestamps are
natural numbers, Python integers are `Int`, fallible operations return
`Option` or `Except` (an exception aborts the enclosing Firestore
transaction, so an error result commits nothing).
-/

namespace CodaV2

/-- A code inside a code scheme (external data-model record, fields as read by
the client: `code_id`, `code_type`, and `control_code`, the latter only
meaningful for control codes). -/
structure Code where
  code_id : String
  code_type : String
  control_code : Option String
deriving DecidableEq, Repr

/-- A code scheme: a scheme id and its list of codes. -/
structure CodeScheme where
  scheme_id : String
  codes : List Code
deriving DecidableEq, Repr

/-- One label of a message, as consumed by `compute_message_metrics`:
the scheme it was made under, the code it assigns, and its checked flag. -/
structure Label where
  scheme_id : String
  code_id : String
  checked : Bool
deriving DecidableEq, Repr

/-- The aggregate metrics record `{messages_count, messages_with_label,
not_coded_messages, wrong_scheme_messages}`. -/
structure MessagesMetrics where
  messages_count : Int
  messages_with_label : Int
  not_coded_messages : Int
  wrong_scheme_messages : Int
deriving DecidableEq, Repr

/-- Modelled from the spec: `MessagesMetrics` supports addition, pointwise on
the four counters (the class itself lives in the external data-models
package, not under this repository's source). -/
instance : Add MessagesMetrics where
  add a b := ⟨a.messages_count + b.messages_count,
    a.messages_with_label + b.messages_with_label,
    a.not_coded_messages + b.not_coded_messages,
    a.wrong_scheme_messages + b.wrong_scheme_messages⟩

/-- Modelled from the spec: `MessagesMetrics` supports subtraction, pointwise
on the four counters. -/
instance : Sub MessagesMetrics where
  sub a b := ⟨a.messages_count - b.messages_count,
    a.messages_with_label - b.messages_with_label,
    a.not_coded_messages - b.not_coded_messages,
    a.wrong_scheme_messages - b.wrong_scheme_messages⟩

/-- The zero metrics `MessagesMetrics(0, 0, 0, 0)`. -/
def MessagesMetrics.zero : MessagesMetrics := ⟨0, 0, 0, 0⟩

/-- A message as this client reads and writes it: its id, its
dataset-global sequence number, its optional `LastUpdated` timestamp and
its latest labels.  The external `Message.get_latest_labels()` accessor is
embedded as the field `latest_labels` (the label history collapsed to its
latest snapshot per scheme). -/
structure Message where
  message_id : String
  sequence_number : Int
  last_updated : Option Nat
  latest_labels : List Label
deriving DecidableEq, Repr

/-- The dict comprehension `{cs.scheme_id: cs for cs in code_schemes}`
followed by lookup: the last scheme with the requested id wins, a missing
key is a `KeyError` (modelled as `none`). -/
def scheme_lut (code_schemes : List CodeScheme) (sid : String) : Option CodeScheme :=
  code_schemes.foldl (fun acc cs => if cs.scheme_id = sid then some cs else acc) none

/-- The inner loop of `compute_message_metrics`: scan the scheme's codes for
the label's code id without breaking, so the last matching code wins;
`none` when no code matches (the `assert code_for_label is not None`). -/
def find_code_for_label (codes : List Code) (cid : String) : Option Code :=
  codes.foldl (fun acc c => if cid = c.code_id then some c else acc) none

/-- The three mutable flags of `compute_message_metrics`. -/
structure MetricsFlags where
  has_label : Bool
  has_ws : Bool
  has_nc : Bool
deriving DecidableEq, Repr

/-- One iteration of the label loop in `compute_message_metrics`
(lines 611-628): unchecked labels are skipped; a checked label marks
`has_label`, looks its scheme up (KeyError when absent) and its code up
(assertion when absent), and for a `Control` code marks `has_ws` / `has_nc`
when the control code is `"WS"` / `"NC"`.  `none` models the fatal
exception. -/
def process_label (code_schemes : List CodeScheme) (st : MetricsFlags) (l : Label) :
    Option MetricsFlags :=
  if !l.checked then
    some st
  else
    let st := { st with has_label := true }
    match scheme_lut code_schemes l.scheme_id with
    | none => none
    | some cs =>
      match find_code_for_label cs.codes l.code_id with
      | none => none
      | some code =>
        if code.code_type = "Control" then
          some { st with
            has_ws := st.has_ws || (code.control_code = some "WS"),
            has_nc := st.has_nc || (code.control_code = some "NC") }
        else
          some st

/-- `CodaV2Client.compute_message_metrics` (lines 593-635): fold the label
loop over the message's latest labels, then build the single-message
metrics record; `none` models the fatal KeyError / assertion failure. -/
def compute_message_metrics (message : Message) (code_schemes : List CodeScheme) :
    Option MessagesMetrics :=
  match message.latest_labels.foldlM (process_label code_schemes) ⟨false, false, false⟩ with
  | none => none
  | some flags =>
    some ⟨1,
      if flags.has_label then 1 else 0,
      if flags.has_nc then 1 else 0,
      if flags.has_ws then 1 else 0⟩

/-- `CodaV2Client.compute_segment_messages_metrics` (lines 637-666) with the
messages and code schemes supplied: an empty message list short-circuits to
the zero metrics; otherwise the single-message metrics are summed starting
from the zero metrics, failing if any message's metrics computation fails. -/
def compute_segment_messages_metrics (messages : List Message)
    (code_schemes : List CodeScheme) : Option MessagesMetrics :=
  if messages.isEmpty then
    some MessagesMetrics.zero
  else
    messages.foldlM
      (fun acc m => (compute_message_metrics m code_schemes).map (acc + ·))
      MessagesMetrics.zero

/-- One segment of a dataset: its message collection, its code-scheme
collection, the optional `users` field of the segment document, and the
optional `metrics/messages` document. -/
structure Segment where
  messages : List Message
  code_schemes : List CodeScheme
  users : Option (List String)
  metrics : Option MessagesMetrics
deriving DecidableEq, Repr

/-- A segment none of whose documents exist (how Firestore reads an absent
segment: empty collections, absent fields). -/
def empty_segment : Segment := ⟨[], [], none, none⟩

/-- A dataset: its segments in index order, segment 1 first.  The stored
segment-count record equals `segments.length`. -/
structure Dataset where
  segments : List Segment
deriving DecidableEq, Repr

/-- `CodaV2Client.MAX_SEGMENT_SIZE`. -/
def MAX_SEGMENT_SIZE : Int := 2500

/-- The number of segments of a dataset (`get_segment_count`). -/
def get_segment_count (d : Dataset) : Nat := d.segments.length

/-- The highest-indexed segment of a dataset (`id_for_segment(dataset_id,
segment_count)` resolved to the segment it addresses). -/
def latest_segment (d : Dataset) : Segment := d.segments.getLastD empty_segment

/-- `get_segment_message` (lines 215-231): point read of a message document
by id; `none` when absent. -/
def get_segment_message (s : Segment) (mid : String) : Option Message :=
  s.messages.find? (fun m => m.message_id = mid)

/-- `get_dataset_message` (lines 309-330): scan the segments in index order
and return the first segment's copy of the message, or `none`. -/
def get_dataset_message (d : Dataset) (mid : String) : Option Message :=
  d.segments.findSome? (fun s => get_segment_message s mid)

/-- The per-segment query of `get_next_available_sequence_number`: order the
segment's messages by `SequenceNumber` descending and take the first, i.e.
return a message holding the segment's maximal sequence number (`none` for
an empty segment). -/
def seg_top_message (s : Segment) : Option Message :=
  s.messages.foldl
    (fun acc m => match acc with
      | none => some m
      | some m0 => if m.sequence_number > m0.sequence_number then some m else some m0)
    none

/-- `get_next_available_sequence_number` (lines 802-831): start the running
maximum at `-1`, take each segment's top-sequence-number message, keep the
larger, and return the maximum plus one. -/
def get_next_available_sequence_number (d : Dataset) : Int :=
  (d.segments.foldl
    (fun hi s => match seg_top_message s with
      | none => hi
      | some msg => if msg.sequence_number > hi then msg.sequence_number else hi)
    (-1)) + 1

/-- The transactional body of `create_next_segment` (lines 158-181): read the
current highest segment, copy its code schemes into the next segment, copy
its user-id list when present, and set the incremented segment count.  The
new segment starts with no messages and no metrics document. -/
def create_next_segment_tx (d : Dataset) : Dataset :=
  let current := latest_segment d
  ⟨d.segments ++
    [{ messages := [], code_schemes := current.code_schemes,
       users := current.users, metrics := none }]⟩

/-- Apply `f` to the segment at (1-based) index `i` of the list. -/
def modify_segment : List Segment → Nat → (Segment → Segment) → List Segment
  | [], _, _ => []
  | s :: ss, 0, _ => s :: ss
  | s :: ss, 1, f => f s :: ss
  | s :: ss, n + 2, f => s :: modify_segment ss (n + 1) f

/-- Write the message document and the metrics document into segment `i`
(1-based) — the two `transaction.set` calls at the end of
`add_message_to_dataset` (lines 871-878). -/
def write_message_and_metrics (d : Dataset) (i : Nat) (msg : Message)
    (mm : MessagesMetrics) : Dataset :=
  ⟨modify_segment d.segments i
    (fun s => { s with messages := s.messages ++ [msg], metrics := some mm })⟩

/-- The segment's stored metrics document, falling back to computing the
metrics from the stored messages when the document is absent
(lines 860-862). -/
def effective_segment_metrics (s : Segment) : Option MessagesMetrics :=
  match s.metrics with
  | some mm => some mm
  | none => compute_segment_messages_metrics s.messages s.code_schemes

/-- The fatal errors that abort the `add_message_to_dataset` transaction. -/
inductive AddError
  | duplicateMessage
  | corruptLabel
deriving DecidableEq, Repr

/-- `add_message_to_dataset` (lines 833-880), executed as one Firestore
transaction over the dataset state `d` with server write time `now`:
copy the incoming message, fail on a duplicate id, overwrite the copy's
`last_updated` with the server timestamp and its `sequence_number` with the
next available one, compute the copy's single-message metrics against the
latest segment's code schemes, read the latest segment's metrics (computing
them when the document is absent), create the next segment first when the
count is at or above `MAX_SEGMENT_SIZE`, then write the message and the
updated metrics into the target segment.  An error aborts the transaction
(nothing is committed); success returns the new state and the written
message copy. -/
def add_message_to_dataset (d : Dataset) (message0 : Message) (now : Nat) :
    Except AddError (Dataset × Message) :=
  let message := message0   -- message.copy()
  let message_id := message.message_id
  if (get_dataset_message d message_id).isSome then
    .error .duplicateMessage
  else
    let segment_count := get_segment_count d
    let latest := latest_segment d
    let message := { message with
      last_updated := some now,
      sequence_number := get_next_available_sequence_number d }
    match compute_segment_messages_metrics [message] latest.code_schemes with
    | none => .error .corruptLabel
    | some message_metrics =>
      match effective_segment_metrics latest with
      | none => .error .corruptLabel
      | some segment_messages_metrics =>
        if segment_messages_metrics.messages_count ≥ MAX_SEGMENT_SIZE then
          let d' := create_next_segment_tx d
          .ok (write_message_and_metrics d' (segment_count + 1) message
                (MessagesMetrics.zero + message_metrics), message)
        else
          .ok (write_message_and_metrics d segment_count message
                (segment_messages_metrics + message_metrics), message)

/-- The `@firestore.transactional` wrapper around `add_message_to_dataset`:
a successful body commits the new state, an exception aborts the
transaction so the stored state is unchanged. -/
def add_message_outer (d : Dataset) (message : Message) (now : Nat) :
    Dataset × Option AddError :=
  match add_message_to_dataset d message now with
  | .ok (d', _) => (d', none)
  | .error e => (d, some e)

/-- Run a sequence of `add_message_to_dataset` calls (each with its own
server write time), collecting the assigned sequence numbers; `none` as
soon as one call fails. -/
def add_message_run (d : Dataset) : List (Message × Nat) → Option (Dataset × List Int)
  | [] => some (d, [])
  | (m, now) :: rest =>
    match add_message_to_dataset d m now with
    | .error _ => none
    | .ok (d', written) =>
      match add_message_run d' rest with
      | none => none
      | some (d'', seqs) => some (d'', written.sequence_number :: seqs)

/-- The fatal errors of `update_segment_message`. -/
inductive UpdateError
  | messageNotFound
  | corruptLabel
  | noneMetricsArithmetic
deriving DecidableEq, Repr

/-- Replace the segment's stored copy of `msg` (keyed by message id) —
the `transaction.set` at line 254. -/
def replace_segment_message (s : Segment) (msg : Message) : Segment :=
  { s with
    messages := s.messages.map
      (fun m => if m.message_id = msg.message_id then msg else m) }

/-- `update_segment_message` (lines 233-259), run on one segment inside a
transaction: `ValueError` when the message is not already present; then the
old message's metrics are computed (a corrupt label asserts), the delta is
applied to the segment's stored metrics and the message body is replaced.
The stored metrics document is read as-is: when it is absent the Python
value is `None` and the `segment_metrics -= ...` statement raises a
`TypeError` (modelled as `noneMetricsArithmetic`), aborting the
transaction. -/
def update_segment_message (s : Segment) (message : Message) :
    Except UpdateError Segment :=
  match get_segment_message s message.message_id with
  | none => .error .messageNotFound
  | some old_message =>
    let segment_metrics := s.metrics
    let segment_code_schemes := s.code_schemes
    match compute_message_metrics old_message segment_code_schemes with
    | none => .error .corruptLabel
    | some old_metrics =>
      match segment_metrics with
      | none => .error .noneMetricsArithmetic
      | some sm =>
        match compute_message_metrics message segment_code_schemes with
        | none => .error .corruptLabel
        | some new_metrics =>
          .ok { (replace_segment_message s message) with
                metrics := some (sm - old_metrics + new_metrics) }

/-- Outcomes of the post-commit segment-count poll of
`create_next_segment` (lines 183-189). -/
inductive PollOutcome
  | success
  | nameError
  | propagationFailure
deriving DecidableEq, Repr

/-- The post-commit poll of `create_next_segment` when no caller-supplied
transaction is given (lines 183-189), translated as the code is written:
`for x in range(0, 10)` re-reads the segment count (`counts x` is the value
the `x`-th read observes) and returns on seeing `next_count`; otherwise the
body logs and calls `time.sleep(1)` — but the module never imports `time`,
so that call raises `NameError` and the loop aborts on its first
unsuccessful iteration; the `assert False` after the loop is only reachable
when all ten reads miss. -/
def segment_count_poll_iter (counts : Nat → Nat) (next_count : Nat) :
    Nat → Nat → PollOutcome
  | _, 0 => .propagationFailure
  | x, _fuel + 1 =>
    if counts x = next_count then .success
    else .nameError   -- time.sleep(1) raises NameError: name 'time' is not defined

/-- The whole ten-attempt poll. -/
def segment_count_poll (counts : Nat → Nat) (next_count : Nat) : PollOutcome :=
  segment_count_poll_iter counts next_count 0 10

/-- `get_segment_messages` (lines 279-307): filter the segment's messages by
`LastUpdated`.  A `where("LastUpdated", ">", a)` / `<=` clause only matches
documents that have the field, so with either bound present a message with
no `last_updated` is excluded; with no bounds every message is returned. -/
def lu_after (bound : Option Nat) (m : Message) : Bool :=
  match bound with
  | none => true
  | some a =>
    match m.last_updated with
    | none => false
    | some t => a < t

/-- The `last_updated_before` filter: `LastUpdated <= bound`. -/
def lu_before (bound : Option Nat) (m : Message) : Bool :=
  match bound with
  | none => true
  | some b =>
    match m.last_updated with
    | none => false
    | some t => t ≤ b

/-- `get_segment_messages`: both optional `LastUpdated` filters applied to
the segment's message collection. -/
def get_segment_messages (s : Segment) (after before : Option Nat) : List Message :=
  s.messages.filter (fun m => lu_after after m && lu_before before m)

/-- One step of the running-maximum loops over `LastUpdated` (lines 361-367
and 375-379): messages without the field are skipped. -/
def lu_max_step (acc : Option Nat) (m : Message) : Option Nat :=
  match m.last_updated, acc with
  | none, _ => acc
  | some t, none => some t
  | some t, some a => some (max a t)

/-- The maximum `last_updated` over a fetched message list, ignoring
messages without the field; `none` when no fetched message carries a
timestamp. -/
def max_lu (ms : List Message) : Option Nat :=
  ms.foldl lu_max_step none

/-- One step of the running-minimum loop (`dataset_first_updated`). -/
def lu_min_step (acc : Option Nat) (m : Message) : Option Nat :=
  match m.last_updated, acc with
  | none, _ => acc
  | some t, none => some t
  | some t, some a => some (min a t)

/-- The minimum `last_updated` over a fetched message list
(`dataset_first_updated`). -/
def min_lu (ms : List Message) : Option Nat :=
  ms.foldl lu_min_step none

/-- The two passes `get_dataset_messages` makes over one segment
(lines 374-386): the first-pass fetch, then — unless neither this segment's
first pass nor the whole dataset saw any timestamp — a re-scan over
`(segmentMax, datasetLast]`, where `segmentMax` falls back to the global
first watermark `dfirst` when this segment's first pass fetched no
timestamped message. -/
def segment_two_pass (after dfirst dlast : Option Nat) (s : Segment) :
    List Message :=
  let fetched := get_segment_messages s after none
  let seg_last :=
    match max_lu fetched with
    | some v => some v
    | none => dfirst
  match seg_last with
  | none => fetched
  | some v => fetched ++ get_segment_messages s (some v) dlast

/-- The multi-segment branch of `get_dataset_messages` (lines 350-391)
before the duplicate check: fetch each segment (first pass), compute the
global first/last updated watermarks over everything fetched, run each
segment's re-scan, and concatenate each segment's first-pass and re-scan
results in segment order. -/
def get_dataset_messages_multi (segs : List Segment) (after : Option Nat) :
    List Message :=
  let pass1 := segs.map (fun s => get_segment_messages s after none)
  (segs.map
    (segment_two_pass after (min_lu pass1.flatten) (max_lu pass1.flatten))).flatten

/-- `get_dataset_messages` (lines 332-399): a single-segment dataset is a
plain segment fetch; a multi-segment dataset runs the two-pass fetch and
then asserts that no message id repeats in the merged result (`none` models
that assertion failing). -/
def get_dataset_messages (d : Dataset) (after : Option Nat) :
    Option (List Message) :=
  if get_segment_count d = 1 then
    some (get_segment_messages (d.segments.headD empty_segment) after none)
  else
    let messages := get_dataset_messages_multi d.segments after
    if (messages.map (fun m => m.message_id)).Nodup then some messages else none

/-- Modelled from the spec: structural equality of `CodeScheme` objects is
the external data-models package's `__eq__` (not under this repository's
source); per the spec's consistency-check symmetry, two schemes that differ
only in the order of the codes inside the scheme are equal, while a
difference in any code's fields makes them unequal — i.e. equality compares
the scheme id and the codes up to permutation. -/
def scheme_eq (a b : CodeScheme) : Bool :=
  a.scheme_id = b.scheme_id && decide (a.codes.Perm b.codes)

/-- `list.sort(key=lambda s: s.scheme_id)`: a stable sort by scheme id. -/
def sort_schemes (l : List CodeScheme) : List CodeScheme :=
  l.mergeSort (fun a b => a.scheme_id ≤ b.scheme_id)

/-- `ensure_code_schemes_consistent` (lines 412-443) over the per-segment
scheme lists (segment 1 first): one segment passes vacuously; otherwise
each later segment must have as many schemes as the first, and after both
lists are sorted by scheme id the schemes must be pairwise equal.  `true`
means the check passes, `false` that an assertion fires. -/
def ensure_code_schemes_consistent (segments : List (List CodeScheme)) : Bool :=
  match segments with
  | [] => true
  | [_] => true
  | first :: rest =>
    rest.all (fun current =>
      first.length = current.length &&
      ((sort_schemes first).zip (sort_schemes current)).all
        (fun p => scheme_eq p.1 p.2))

/-! ## Metrics algebra -/

theorem metrics_add_def (a b : MessagesMetrics) :
    a + b = ⟨a.messages_count + b.messages_count,
      a.messages_with_label + b.messages_with_label,
      a.not_coded_messages + b.not_coded_messages,
      a.wrong_scheme_messages + b.wrong_scheme_messages⟩ := rfl

theorem metrics_zero_add (a : MessagesMetrics) : MessagesMetrics.zero + a = a := by
  cases a
  simp [metrics_add_def, MessagesMetrics.zero]

theorem metrics_add_zero (a : MessagesMetrics) : a + MessagesMetrics.zero = a := by
  cases a
  simp [metrics_add_def, MessagesMetrics.zero]

theorem metrics_add_assoc (a b c : MessagesMetrics) : a + b + c = a + (b + c) := by
  cases a
  cases b
  cases c
  simp [metrics_add_def]
  omega

/-- The metrics fold of `compute_segment_messages_metrics` without the
empty-list short-circuit. -/
def sum_message_metrics (messages : List Message) (code_schemes : List CodeScheme) :
    Option MessagesMetrics :=
  messages.foldlM
    (fun acc m => (compute_message_metrics m code_schemes).map (acc + ·))
    MessagesMetrics.zero

theorem compute_segment_messages_metrics_eq_sum (messages : List Message)
    (code_schemes : List CodeScheme) :
    compute_segment_messages_metrics messages code_schemes =
      sum_message_metrics messages code_schemes := by
  cases messages with
  | nil => rfl
  | cons m l => rfl

theorem sum_message_metrics_shift (code_schemes : List CodeScheme)
    (l : List Message) (acc : MessagesMetrics) :
    l.foldlM (fun acc m => (compute_message_metrics m code_schemes).map (acc + ·))
        acc =
      (sum_message_metrics l code_schemes).map (acc + ·) := by
  induction l generalizing acc with
  | nil => simp [sum_message_metrics, metrics_add_zero]
  | cons m l ih =>
    simp only [sum_message_metrics, List.foldlM_cons]
    cases h : compute_message_metrics m code_schemes with
    | none => simp [Option.map]
    | some δ =>
      simp only [Option.map_some', Option.some_bind, Option.bind_eq_bind]
      rw [ih, ih (MessagesMetrics.zero + δ)]
      cases hs : sum_message_metrics l code_schemes with
      | none => simp
      | some b => simp [metrics_zero_add, metrics_add_assoc]

theorem sum_message_metrics_append (l₁ l₂ : List Message)
    (code_schemes : List CodeScheme) :
    sum_message_metrics (l₁ ++ l₂) code_schemes =
      (sum_message_metrics l₁ code_schemes).bind
        (fun a => (sum_message_metrics l₂ code_schemes).map (a + ·)) := by
  simp only [sum_message_metrics, List.foldlM_append]
  cases h : l₁.foldlM
      (fun acc m => (compute_message_metrics m code_schemes).map (acc + ·))
      MessagesMetrics.zero with
  | none => simp
  | some a =>
    simp only [Option.some_bind, Option.bind_eq_bind]
    exact sum_message_metrics_shift code_schemes l₂ a

/-- C5: segment-metrics computation is additive: the empty message list
yields the zero metrics, and whenever the metrics of two sublists both
compute, the metrics of their concatenation is their pointwise sum. -/
theorem segment_metrics_additive :
    (∀ code_schemes : List CodeScheme,
      compute_segment_messages_metrics [] code_schemes =
        some MessagesMetrics.zero) ∧
    (∀ (l₁ l₂ : List Message) (code_schemes : List CodeScheme)
        (a b : MessagesMetrics),
      compute_segment_messages_metrics l₁ code_schemes = some a →
      compute_segment_messages_metrics l₂ code_schemes = some b →
      compute_segment_messages_metrics (l₁ ++ l₂) code_schemes = some (a + b)) := by
  constructor
  · intro code_schemes
    rfl
  · intro l₁ l₂ code_schemes a b h₁ h₂
    rw [compute_segment_messages_metrics_eq_sum] at h₁ h₂ ⊢
    rw [sum_message_metrics_append, h₁, h₂]
    rfl

/-- Witness for C5 at concrete inputs: two unlabelled singleton message
lists, each with metrics `{1, 0, 0, 0}`, summing to `{2, 0, 0, 0}`. -/
theorem segment_metrics_additive_witness :
    compute_segment_messages_metrics
        [⟨"a", 0, none, []⟩, ⟨"b", 1, none, []⟩] [] =
      some ((⟨1, 0, 0, 0⟩ : MessagesMetrics) + (⟨1, 0, 0, 0⟩ : MessagesMetrics)) :=
  segment_metrics_additive.2 [⟨"a", 0, none, []⟩] [⟨"b", 1, none, []⟩] []
    ⟨1, 0, 0, 0⟩ ⟨1, 0, 0, 0⟩ rfl rfl

/-! ## Single-message metrics (C6) -/

/-- The code a label resolves to: look its scheme up in the scheme dict,
then scan that scheme's codes (last match wins); `none` when either lookup
fails. -/
def label_resolved_code (code_schemes : List CodeScheme) (l : Label) : Option Code :=
  match scheme_lut code_schemes l.scheme_id with
  | none => none
  | some cs => find_code_for_label cs.codes l.code_id

/-- Whether a label resolves to a control code carrying the given control
code tag. -/
def label_marks_control (code_schemes : List CodeScheme) (cc : String) (l : Label) :
    Bool :=
  match label_resolved_code code_schemes l with
  | none => false
  | some c => c.code_type = "Control" && c.control_code = some cc

/-- `process_label` rewritten through `label_resolved_code`: skip unchecked
labels; a checked label fails when its code does not resolve and otherwise
marks `has_label` and accumulates the control-code flags. -/
theorem process_label_eq (code_schemes : List CodeScheme) (st : MetricsFlags)
    (l : Label) :
    process_label code_schemes st l =
      if l.checked = false then some st
      else
        match label_resolved_code code_schemes l with
        | none => none
        | some code =>
          some ⟨true,
            st.has_ws ||
              (code.code_type = "Control" && code.control_code = some "WS"),
            st.has_nc ||
              (code.code_type = "Control" && code.control_code = some "NC")⟩ := by
  unfold process_label label_resolved_code
  by_cases hc : l.checked
  · simp only [hc, Bool.not_true, Bool.false_eq_true, if_false, Bool.true_eq_false]
    cases h2 : scheme_lut code_schemes l.scheme_id with
    | none => simp
    | some cs =>
      cases h3 : find_code_for_label cs.codes l.code_id with
      | none => simp [h3]
      | some code =>
        by_cases ht : code.code_type = "Control"
        · simp [h3, ht]
        · simp [h3, ht]
  · have hcf : l.checked = false := by
      revert hc
      cases l.checked <;> simp
    simp [hcf]

theorem process_label_run (code_schemes : List CodeScheme) :
    ∀ (labels : List Label) (st st' : MetricsFlags),
      labels.foldlM (process_label code_schemes) st = some st' →
      st'.has_label = (st.has_label || labels.any (fun l => l.checked)) ∧
      st'.has_ws = (st.has_ws ||
        labels.any (fun l => l.checked && label_marks_control code_schemes "WS" l)) ∧
      st'.has_nc = (st.has_nc ||
        labels.any (fun l => l.checked && label_marks_control code_schemes "NC" l)) := by
  intro labels
  induction labels with
  | nil =>
    intro st st' h
    simp only [List.foldlM_nil, pure, Option.some.injEq] at h
    subst h
    simp
  | cons l ls ih =>
    intro st st' h
    simp only [List.foldlM_cons, Option.bind_eq_bind] at h
    cases h1 : process_label code_schemes st l with
    | none => rw [h1] at h; simp at h
    | some st1 =>
      rw [h1] at h
      simp only [Option.some_bind] at h
      obtain ⟨e1, e2, e3⟩ := ih st1 st' h
      rw [process_label_eq] at h1
      by_cases hc : l.checked
      · simp only [hc, Bool.true_eq_false, if_false] at h1
        cases hres : label_resolved_code code_schemes l with
        | none => rw [hres] at h1; simp at h1
        | some code =>
          rw [hres] at h1
          simp only [Option.some.injEq] at h1
          subst h1
          refine ⟨?_, ?_, ?_⟩
          · simp [e1, hc]
          · simp only [e2, List.any_cons, hc, Bool.true_and,
              label_marks_control, hres]
            simp [Bool.or_assoc]
          · simp only [e3, List.any_cons, hc, Bool.true_and,
              label_marks_control, hres]
            simp [Bool.or_assoc]
      · have hcf : l.checked = false := by
          revert hc
          cases l.checked <;> simp
        simp only [hcf, if_true, Option.some.injEq] at h1
        subst h1
        refine ⟨?_, ?_, ?_⟩ <;> simp [e1, e2, e3, hcf]

theorem process_label_run_fails (code_schemes : List CodeScheme) :
    ∀ (labels : List Label) (st : MetricsFlags) (l : Label),
      l ∈ labels → l.checked = true →
      label_resolved_code code_schemes l = none →
      labels.foldlM (process_label code_schemes) st = none := by
  intro labels
  induction labels with
  | nil =>
    intro st l hmem
    simp at hmem
  | cons h hs ih =>
    intro st l hmem hchk hres
    simp only [List.foldlM_cons, Option.bind_eq_bind]
    rcases List.mem_cons.mp hmem with heq | htl
    · subst heq
      have hbad : process_label code_schemes st l = none := by
        rw [process_label_eq]
        simp only [hchk, Bool.true_eq_false, if_false, hres]
      rw [hbad]
      rfl
    · cases h1 : process_label code_schemes st h with
      | none => rfl
      | some st1 =>
        simp only [Option.some_bind]
        exact ih st1 l htl hchk hres

/-- C6: `compute_message_metrics` returns a record whose `messages_count`
is always 1 and whose other counters are each 0 or 1; on success,
`messages_with_label` is 1 exactly when some latest label is checked,
`wrong_scheme_messages` (resp. `not_coded_messages`) is 1 exactly when some
checked latest label resolves to a `Control` code tagged `"WS"`
(resp. `"NC"`); and the computation fails fatally when a checked latest
label's scheme is found but its code id is absent from that scheme. -/
theorem message_metrics_shape :
    (∀ (m : Message) (code_schemes : List CodeScheme) (mm : MessagesMetrics),
      compute_message_metrics m code_schemes = some mm →
      mm.messages_count = 1 ∧
      (mm.messages_with_label =
        if m.latest_labels.any (fun l => l.checked) then 1 else 0) ∧
      (mm.wrong_scheme_messages =
        if m.latest_labels.any
            (fun l => l.checked && label_marks_control code_schemes "WS" l)
          then 1 else 0) ∧
      (mm.not_coded_messages =
        if m.latest_labels.any
            (fun l => l.checked && label_marks_control code_schemes "NC" l)
          then 1 else 0) ∧
      (mm.messages_with_label = 0 ∨ mm.messages_with_label = 1) ∧
      (mm.wrong_scheme_messages = 0 ∨ mm.wrong_scheme_messages = 1) ∧
      (mm.not_coded_messages = 0 ∨ mm.not_coded_messages = 1)) ∧
    (∀ (m : Message) (code_schemes : List CodeScheme) (l : Label),
      l ∈ m.latest_labels → l.checked = true →
      (scheme_lut code_schemes l.scheme_id).isSome = true →
      label_resolved_code code_schemes l = none →
      compute_message_metrics m code_schemes = none) := by
  constructor
  · intro m code_schemes mm h
    unfold compute_message_metrics at h
    cases hf : m.latest_labels.foldlM (process_label code_schemes)
        ⟨false, false, false⟩ with
    | none => rw [hf] at h; simp at h
    | some flags =>
      rw [hf] at h
      simp only [Option.some.injEq] at h
      subst h
      obtain ⟨e1, e2, e3⟩ := process_label_run code_schemes m.latest_labels
        ⟨false, false, false⟩ flags hf
      simp only [Bool.false_or] at e1 e2 e3
      refine ⟨rfl, ?_, ?_, ?_, ?_, ?_, ?_⟩
      · simp [e1]
      · simp [e2]
      · simp [e3]
      · by_cases hb : flags.has_label <;> simp [hb]
      · by_cases hb : flags.has_ws <;> simp [hb]
      · by_cases hb : flags.has_nc <;> simp [hb]
  · intro m code_schemes l hmem hchk hsch hres
    unfold compute_message_metrics
    rw [process_label_run_fails code_schemes m.latest_labels
      ⟨false, false, false⟩ l hmem hchk hres]

/-- Witness for C6: a message whose checked label resolves to the control
code `"WS"` yields metrics `{1, 1, 0, 1}`, and a message whose checked
label references a code id absent from its (present) scheme fails. -/
theorem message_metrics_shape_witness :
    (⟨1, 1, 0, 1⟩ : MessagesMetrics).messages_count = 1 ∧
    compute_message_metrics ⟨"m", 0, none, [⟨"s", "bad", true⟩]⟩
      [⟨"s", [⟨"c1", "Normal", none⟩]⟩] = none := by
  constructor
  · exact (message_metrics_shape.1 ⟨"m", 0, none, [⟨"s", "c1", true⟩]⟩
      [⟨"s", [⟨"c1", "Control", some "WS"⟩]⟩] ⟨1, 1, 0, 1⟩ rfl).1
  · exact message_metrics_shape.2 ⟨"m", 0, none, [⟨"s", "bad", true⟩]⟩
      [⟨"s", [⟨"c1", "Normal", none⟩]⟩] ⟨"s", "bad", true⟩ (by decide) rfl
      (by decide) (by decide)

/-! ## Duplicate detection and atomicity (C4), frame property (C10) -/

theorem get_dataset_message_isSome_iff (d : Dataset) (mid : String) :
    (get_dataset_message d mid).isSome = true ↔
      ∃ s ∈ d.segments, ∃ msg ∈ s.messages, msg.message_id = mid := by
  unfold get_dataset_message
  induction d.segments with
  | nil => simp
  | cons s ss ih =>
    rw [List.findSome?_cons]
    cases hs : get_segment_message s mid with
    | some msg =>
      simp only [Option.isSome_some, true_iff]
      unfold get_segment_message at hs
      exact ⟨s, List.mem_cons_self s ss, msg, List.mem_of_find?_eq_some hs,
        by simpa using List.find?_some hs⟩
    | none =>
      rw [ih]
      constructor
      · rintro ⟨t, ht, msg, hmsg, hid⟩
        exact ⟨t, List.mem_cons_of_mem s ht, msg, hmsg, hid⟩
      · rintro ⟨t, ht, msg, hmsg, hid⟩
        rcases List.mem_cons.mp ht with rfl | ht'
        · exfalso
          unfold get_segment_message at hs
          have : (t.messages.find? (fun m => m.message_id = mid)).isSome = true :=
            List.find?_isSome.mpr ⟨msg, hmsg, by simpa using hid⟩
          rw [hs] at this
          simp at this
        · exact ⟨t, ht', msg, hmsg, hid⟩

/-- C4: `add_message_to_dataset` fails with the duplicate-message error
exactly when some segment of the dataset already stores a message with the
incoming message's id, and any failure leaves the stored dataset unchanged
(the transaction commits nothing). -/
theorem add_duplicate_iff_and_atomic :
    ∀ (d : Dataset) (m : Message) (now : Nat),
      (add_message_to_dataset d m now = .error .duplicateMessage ↔
        ∃ s ∈ d.segments, ∃ msg ∈ s.messages, msg.message_id = m.message_id) ∧
      (∀ e : AddError, (add_message_outer d m now).2 = some e →
        (add_message_outer d m now).1 = d) := by
  intro d m now
  constructor
  · rw [← get_dataset_message_isSome_iff]
    unfold add_message_to_dataset
    by_cases hdup : (get_dataset_message d m.message_id).isSome
    · simp [hdup]
    · simp only [hdup, Bool.false_eq_true, if_false]
      constructor
      · intro h
        exfalso
        revert h
        split
        · intro h
          simp at h
        · split
          · intro h
            simp at h
          · split
            · intro h
              simp at h
            · intro h
              simp at h
      · intro h
        exact h.elim
  · intro e
    unfold add_message_outer
    cases h : add_message_to_dataset d m now with
    | ok r => simp
    | error e' => simp

/-- Witness for C4: adding a message whose id `"x"` is already stored
fails with the duplicate-message error and leaves the dataset unchanged. -/
theorem add_duplicate_iff_and_atomic_witness :
    add_message_to_dataset ⟨[⟨[⟨"x", 0, none, []⟩], [], none, none⟩]⟩
        ⟨"x", 1, none, []⟩ 5 = .error .duplicateMessage ∧
    (add_message_outer ⟨[⟨[⟨"x", 0, none, []⟩], [], none, none⟩]⟩
        ⟨"x", 1, none, []⟩ 5).1 =
      ⟨[⟨[⟨"x", 0, none, []⟩], [], none, none⟩]⟩ :=
  ⟨(add_duplicate_iff_and_atomic ⟨[⟨[⟨"x", 0, none, []⟩], [], none, none⟩]⟩
      ⟨"x", 1, none, []⟩ 5).1.mpr
    ⟨⟨[⟨"x", 0, none, []⟩], [], none, none⟩, List.mem_singleton.mpr rfl,
      ⟨"x", 0, none, []⟩, List.mem_singleton.mpr rfl, rfl⟩,
   (add_duplicate_iff_and_atomic ⟨[⟨[⟨"x", 0, none, []⟩], [], none, none⟩]⟩
      ⟨"x", 1, none, []⟩ 5).2 .duplicateMessage rfl⟩

/-- C10: `add_message_to_dataset` copies the incoming message and
overwrites the copy's `last_updated` and `sequence_number` before any use,
so its entire behaviour is independent of those two fields of the caller's
message object — the pure-embedding rendering of "the caller's message is
never mutated". -/
theorem add_ignores_caller_seq_and_timestamp :
    ∀ (d : Dataset) (m : Message) (now : Nat) (sn : Int) (lu : Option Nat),
      add_message_to_dataset d
          { m with sequence_number := sn, last_updated := lu } now =
        add_message_to_dataset d m now := by
  intro d m now sn lu
  cases m
  rfl

/-! ## Segment-count propagation poll (C9) -/

/-- C9: the post-commit poll returns successfully when the very first
re-read already observes the incremented count, but on any first read that
misses, the loop body's `time.sleep(1)` raises `NameError` (the module
never imports `time`): no retry ever happens and the
segment-count-propagation assertion is unreachable, contradicting the
documented 10-attempt retry behaviour. -/
theorem segment_count_poll_broken :
    ∀ (counts : Nat → Nat) (next_count : Nat),
      (counts 0 = next_count → segment_count_poll counts next_count = .success) ∧
      (counts 0 ≠ next_count → segment_count_poll counts next_count = .nameError) := by
  intro counts next_count
  constructor
  · intro h
    simp [segment_count_poll, segment_count_poll_iter, h]
  · intro h
    simp [segment_count_poll, segment_count_poll_iter, h]

/-- Witness for C9: with a stale first read the poll dies with `NameError`
instead of retrying. -/
theorem segment_count_poll_broken_witness :
    segment_count_poll (fun _ => 1) 2 = .nameError ∧
    segment_count_poll (fun _ => 2) 2 = .success :=
  ⟨(segment_count_poll_broken (fun _ => 1) 2).2 (by decide),
   (segment_count_poll_broken (fun _ => 2) 2).1 rfl⟩

/-! ## Cross-segment code-scheme consistency (C7) -/

theorem scheme_eq_refl (a : CodeScheme) : scheme_eq a a = true := by
  simp [scheme_eq]

/-- C7: for a two-segment dataset the consistency check passes exactly when
the segments hold as many schemes as each other and, after both lists are
sorted by scheme id, the schemes are pairwise equal; in particular two
single-scheme segments whose shared scheme differs only in the order of its
codes pass the check, while any difference in the codes themselves
(a permutation cannot relate them) fails it. -/
theorem code_schemes_consistency_check :
    (∀ s₁ s₂ : List CodeScheme,
      ensure_code_schemes_consistent [s₁, s₂] = true ↔
        (s₁.length = s₂.length ∧
          List.Forall₂ (fun a b => scheme_eq a b = true)
            (sort_schemes s₁) (sort_schemes s₂))) ∧
    (∀ (sid : String) (c₁ c₂ : List Code), c₁.Perm c₂ →
      ensure_code_schemes_consistent [[⟨sid, c₁⟩], [⟨sid, c₂⟩]] = true) ∧
    (∀ (sid : String) (c₁ c₂ : List Code), ¬ c₁.Perm c₂ →
      ensure_code_schemes_consistent [[⟨sid, c₁⟩], [⟨sid, c₂⟩]] = false) := by
  refine ⟨?_, ?_, ?_⟩
  · intro s₁ s₂
    unfold ensure_code_schemes_consistent
    simp only [List.all_cons, List.all_nil, Bool.and_true, Bool.and_eq_true,
      decide_eq_true_eq, List.all_eq_true]
    constructor
    · rintro ⟨hlen, hall⟩
      refine ⟨hlen, List.forall₂_iff_zip.mpr ⟨?_, ?_⟩⟩
      · simp [sort_schemes, List.length_mergeSort, hlen]
      · intro a b hab
        exact hall (a, b) hab
    · rintro ⟨hlen, hfa⟩
      refine ⟨hlen, ?_⟩
      rintro ⟨a, b⟩ hab
      exact (List.forall₂_iff_zip.mp hfa).2 hab
  · intro sid c₁ c₂ hperm
    have h1 : ensure_code_schemes_consistent [[⟨sid, c₁⟩], [⟨sid, c₂⟩]] =
        scheme_eq ⟨sid, c₁⟩ ⟨sid, c₂⟩ := by
      unfold ensure_code_schemes_consistent
      simp [sort_schemes, List.mergeSort]
    rw [h1]
    simp [scheme_eq, hperm]
  · intro sid c₁ c₂ hperm
    have h1 : ensure_code_schemes_consistent [[⟨sid, c₁⟩], [⟨sid, c₂⟩]] =
        scheme_eq ⟨sid, c₁⟩ ⟨sid, c₂⟩ := by
      unfold ensure_code_schemes_consistent
      simp [sort_schemes, List.mergeSort]
    rw [h1]
    simp [scheme_eq, hperm]

/-- Witness for C7: one scheme with its two codes swapped passes the
check; replacing a code with a different one fails it. -/
theorem code_schemes_consistency_check_witness :
    ensure_code_schemes_consistent
      [[⟨"s", [⟨"c1", "Normal", none⟩, ⟨"c2", "Control", some "WS"⟩]⟩],
       [⟨"s", [⟨"c2", "Control", some "WS"⟩, ⟨"c1", "Normal", none⟩]⟩]] = true ∧
    ensure_code_schemes_consistent
      [[⟨"s", [⟨"c1", "Normal", none⟩]⟩],
       [⟨"s", [⟨"c1", "Normal", some "NC"⟩]⟩]] = false :=
  ⟨code_schemes_consistency_check.2.1 "s"
      [⟨"c1", "Normal", none⟩, ⟨"c2", "Control", some "WS"⟩]
      [⟨"c2", "Control", some "WS"⟩, ⟨"c1", "Normal", none⟩]
      (by decide),
   code_schemes_consistency_check.2.2 "s"
      [⟨"c1", "Normal", none⟩] [⟨"c1", "Normal", some "NC"⟩]
      (by decide)⟩

/-! ## Absent metrics documents (C8) -/

/-- Counterexample to C8 as stated: a segment that stores a message but no
metrics document makes `update_segment_message` fail — the Python code
reads the absent document as `None` and then evaluates
`None -= MessagesMetrics(...)`, a `TypeError` — instead of computing the
metrics from the stored messages. -/
theorem update_absent_metrics_counterexample :
    update_segment_message ⟨[⟨"x", 4, some 1, []⟩], [], some ["u1"], none⟩
      ⟨"x", 4, some 2, []⟩ = .error .noneMetricsArithmetic := rfl

/-- C8 (amended): an absent metrics document is an explicit absence, and
the append protocol's overflow check treats it as "compute the metrics from
the stored messages" and proceeds; `update_segment_message`, however, does
not handle the absence and fails on a segment with no stored metrics
document. -/
theorem absent_metrics_handling :
    (∀ (d : Dataset) (m : Message) (now : Nat) (mm δ : MessagesMetrics),
      (latest_segment d).metrics = none →
      compute_segment_messages_metrics (latest_segment d).messages
        (latest_segment d).code_schemes = some mm →
      get_dataset_message d m.message_id = none →
      compute_segment_messages_metrics
        [{ m with last_updated := some now,
                  sequence_number := get_next_available_sequence_number d }]
        (latest_segment d).code_schemes = some δ →
      ∃ r, add_message_to_dataset d m now = .ok r) ∧
    (∀ (s : Segment) (m : Message) (old : Message) (om : MessagesMetrics),
      s.metrics = none →
      get_segment_message s m.message_id = some old →
      compute_message_metrics old s.code_schemes = some om →
      update_segment_message s m = .error .noneMetricsArithmetic) := by
  constructor
  · intro d m now mm δ hmet hcomp hnodup hδ
    simp only [add_message_to_dataset, hnodup, Option.isSome_none,
      Bool.false_eq_true, if_false, hδ, effective_segment_metrics, hmet, hcomp]
    by_cases hge : mm.messages_count ≥ MAX_SEGMENT_SIZE
    · rw [if_pos hge]
      exact ⟨_, rfl⟩
    · rw [if_neg hge]
      exact ⟨_, rfl⟩
  · intro s m old om hmet hfound hom
    simp [update_segment_message, hfound, hom, hmet]

/-- Witness for the amended C8: appending to a dataset whose only segment
has no metrics document succeeds, and updating a message in a segment with
no metrics document fails with the `None`-arithmetic error. -/
theorem absent_metrics_handling_witness :
    (∃ r, add_message_to_dataset ⟨[⟨[], [], none, none⟩]⟩
      ⟨"a", 7, none, []⟩ 3 = .ok r) ∧
    update_segment_message ⟨[⟨"x", 4, some 1, []⟩], [], none, none⟩
      ⟨"x", 4, some 2, []⟩ = .error .noneMetricsArithmetic :=
  ⟨absent_metrics_handling.1 ⟨[⟨[], [], none, none⟩]⟩ ⟨"a", 7, none, []⟩ 3
      MessagesMetrics.zero ⟨1, 0, 0, 0⟩ rfl rfl rfl rfl,
   absent_metrics_handling.2 ⟨[⟨"x", 4, some 1, []⟩], [], none, none⟩
      ⟨"x", 4, some 2, []⟩ ⟨"x", 4, some 1, []⟩ ⟨1, 0, 0, 0⟩ rfl rfl rfl⟩

/-! ## Sequence numbers (C1) and overflow (C2): fold lemmas -/

/-- All messages stored in a dataset, in segment order. -/
def all_messages (d : Dataset) : List Message :=
  d.segments.flatMap (fun s => s.messages)

/-- Running maximum of sequence numbers over a message list. -/
def fold_max_seq (ms : List Message) (acc : Int) : Int :=
  ms.foldl (fun a m => max a m.sequence_number) acc

theorem fold_max_seq_cons (m : Message) (tl : List Message) (a : Int) :
    fold_max_seq (m :: tl) a = fold_max_seq tl (max a m.sequence_number) := rfl

theorem fold_max_seq_append (l₁ l₂ : List Message) (a : Int) :
    fold_max_seq (l₁ ++ l₂) a = fold_max_seq l₂ (fold_max_seq l₁ a) := by
  simp [fold_max_seq, List.foldl_append]

theorem fold_max_seq_max (tl : List Message) :
    ∀ a b : Int, fold_max_seq tl (max a b) = max a (fold_max_seq tl b) := by
  induction tl with
  | nil => intro a b; rfl
  | cons m tl ih =>
    intro a b
    rw [fold_max_seq_cons, max_assoc, ih, ← fold_max_seq_cons]

theorem seg_top_foldl_some (tl : List Message) :
    ∀ m0 : Message,
      ∃ m1,
        tl.foldl (fun acc m => match acc with
          | none => some m
          | some m0 =>
            if m.sequence_number > m0.sequence_number then some m else some m0)
          (some m0) = some m1 ∧
        m1.sequence_number = fold_max_seq tl m0.sequence_number := by
  induction tl with
  | nil =>
    intro m0
    exact ⟨m0, rfl, rfl⟩
  | cons m tl ih =>
    intro m0
    simp only [List.foldl_cons]
    by_cases hgt : m.sequence_number > m0.sequence_number
    · rw [if_pos hgt]
      obtain ⟨m1, h1, h2⟩ := ih m
      refine ⟨m1, h1, ?_⟩
      rw [fold_max_seq_cons, max_eq_right (le_of_lt hgt)]
      exact h2
    · rw [if_neg hgt]
      obtain ⟨m1, h1, h2⟩ := ih m0
      refine ⟨m1, h1, ?_⟩
      rw [fold_max_seq_cons, max_eq_left (not_lt.mp hgt)]
      exact h2

theorem seg_top_spec (s : Segment) (hi : Int) :
    (match seg_top_message s with
      | none => hi
      | some msg =>
        if msg.sequence_number > hi then msg.sequence_number else hi) =
      fold_max_seq s.messages hi := by
  cases hms : s.messages with
  | nil =>
    have htop : seg_top_message s = none := by
      unfold seg_top_message
      rw [hms]
      rfl
    rw [htop]
    rfl
  | cons m tl =>
    have htop : seg_top_message s =
        tl.foldl (fun acc m => match acc with
          | none => some m
          | some m0 =>
            if m.sequence_number > m0.sequence_number then some m else some m0)
          (some m) := by
      unfold seg_top_message
      rw [hms]
      rfl
    obtain ⟨m1, h1, h2⟩ := seg_top_foldl_some tl m
    rw [htop, h1]
    simp only
    rw [fold_max_seq_cons, fold_max_seq_max, ← h2]
    rcases lt_or_le hi m1.sequence_number with hlt | hle
    · rw [if_pos hlt, max_eq_right (le_of_lt hlt)]
    · rw [if_neg (not_lt.mpr hle), max_eq_left hle]

theorem next_seq_foldl (segs : List Segment) :
    ∀ hi : Int,
      segs.foldl (fun hi s => match seg_top_message s with
        | none => hi
        | some msg =>
          if msg.sequence_number > hi then msg.sequence_number else hi) hi =
      fold_max_seq (segs.flatMap (fun s => s.messages)) hi := by
  induction segs with
  | nil =>
    intro hi
    rfl
  | cons s ss ih =>
    intro hi
    simp only [List.foldl_cons, List.flatMap_cons]
    rw [seg_top_spec s hi, ih, ← fold_max_seq_append]

theorem next_seq_global (d : Dataset) :
    get_next_available_sequence_number d =
      fold_max_seq (all_messages d) (-1) + 1 := by
  unfold get_next_available_sequence_number all_messages
  rw [next_seq_foldl]

theorem modify_segment_concat :
    ∀ (init : List Segment) (lastSeg : Segment) (f : Segment → Segment),
      modify_segment (init ++ [lastSeg]) (init ++ [lastSeg]).length f =
        init ++ [f lastSeg] := by
  intro init
  induction init with
  | nil =>
    intro lastSeg f
    rfl
  | cons s init ih =>
    intro lastSeg f
    rw [List.cons_append]
    have hlen : (s :: (init ++ [lastSeg])).length = init.length + 2 := by simp
    rw [hlen]
    show s :: modify_segment (init ++ [lastSeg]) (init.length + 1) f =
      s :: (init ++ [f lastSeg])
    have hlen2 : (init ++ [lastSeg]).length = init.length + 1 := by simp
    rw [← hlen2, ih]

theorem create_segments (d : Dataset) :
    (create_next_segment_tx d).segments =
      d.segments ++
        [{ messages := [],
           code_schemes := (latest_segment d).code_schemes,
           users := (latest_segment d).users,
           metrics := none }] := rfl

theorem write_last_segments (d0 : Dataset) (msg : Message) (mm : MessagesMetrics)
    (init : List Segment) (lastSeg : Segment)
    (hdec : d0.segments = init ++ [lastSeg]) :
    (write_message_and_metrics d0 d0.segments.length msg mm).segments =
      init ++ [{ lastSeg with
        messages := lastSeg.messages ++ [msg], metrics := some mm }] := by
  simp only [write_message_and_metrics]
  rw [hdec, modify_segment_concat]

/-- What a successful `add_message_to_dataset` produces: the written message
is the caller's copy with the server timestamp and the next available
sequence number, and the dataset's stored messages afterwards are exactly
the old ones plus that copy (appended to the last segment, which is the new
segment in the overflow case). -/
theorem add_ok_spec (d : Dataset) (m : Message) (now : Nat) (d' : Dataset)
    (w : Message) (hne : d.segments ≠ [])
    (h : add_message_to_dataset d m now = .ok (d', w)) :
    w = { m with last_updated := some now,
                 sequence_number := get_next_available_sequence_number d } ∧
    all_messages d' = all_messages d ++ [w] ∧
    d'.segments ≠ [] := by
  obtain ⟨init, lastSeg, hdec⟩ : ∃ init lastSeg, d.segments = init ++ [lastSeg] := by
    rcases List.eq_nil_or_concat d.segments with h0 | ⟨L, b, hLb⟩
    · exact absurd h0 hne
    · exact ⟨L, b, by simpa using hLb⟩
  simp only [add_message_to_dataset] at h
  split at h
  · exact absurd h (by simp)
  · split at h
    · exact absurd h (by simp)
    · split at h
      · exact absurd h (by simp)
      · split at h
        · -- overflow: the message lands in the freshly created segment
          rename_i x1 mmet hmet x2 smet heff hge
          simp only [Except.ok.injEq, Prod.mk.injEq] at h
          obtain ⟨hd, hw⟩ := h
          have hidx : get_segment_count d + 1 =
              (create_next_segment_tx d).segments.length := by
            simp [get_segment_count, create_segments]
          rw [hidx] at hd
          have hws := write_last_segments (create_next_segment_tx d)
            { m with last_updated := some now,
                     sequence_number := get_next_available_sequence_number d }
            (MessagesMetrics.zero + mmet) d.segments _ (create_segments d)
          rw [hd] at hws
          refine ⟨hw.symm, ?_, ?_⟩
          · unfold all_messages
            rw [hws, List.flatMap_append, hdec]
            simp [hw]
          · rw [hws]
            simp
        · -- no overflow: the message lands in the current last segment
          rename_i x1 mmet hmet x2 smet heff hge
          simp only [Except.ok.injEq, Prod.mk.injEq] at h
          obtain ⟨hd, hw⟩ := h
          have hidx : get_segment_count d = d.segments.length := rfl
          rw [hidx] at hd
          have hws := write_last_segments d
            { m with last_updated := some now,
                     sequence_number := get_next_available_sequence_number d }
            (smet + mmet) init lastSeg hdec
          rw [hd] at hws
          refine ⟨hw.symm, ?_, ?_⟩
          · unfold all_messages
            rw [hws, List.flatMap_append, hdec, List.flatMap_append]
            simp [hw]
          · rw [hws]
            simp

theorem add_ok_next (d : Dataset) (m : Message) (now : Nat) (d' : Dataset)
    (w : Message) (hne : d.segments ≠ [])
    (h : add_message_to_dataset d m now = .ok (d', w)) :
    w.sequence_number = get_next_available_sequence_number d ∧
    get_next_available_sequence_number d' =
      get_next_available_sequence_number d + 1 ∧
    d'.segments ≠ [] := by
  obtain ⟨hw, hall, hne'⟩ := add_ok_spec d m now d' w hne h
  have hwseq : w.sequence_number = get_next_available_sequence_number d := by
    rw [hw]
  refine ⟨hwseq, ?_, hne'⟩
  rw [next_seq_global d', hall, fold_max_seq_append]
  have hcons : fold_max_seq [w] (fold_max_seq (all_messages d) (-1)) =
      max (fold_max_seq (all_messages d) (-1)) w.sequence_number := rfl
  rw [hcons, hwseq, next_seq_global d]
  have hmax : max (fold_max_seq (all_messages d) (-1))
      (fold_max_seq (all_messages d) (-1) + 1) =
      fold_max_seq (all_messages d) (-1) + 1 := max_eq_right (by omega)
  rw [hmax]

theorem add_run_seqs :
    ∀ (items : List (Message × Nat)) (d d' : Dataset) (seqs : List Int),
      d.segments ≠ [] →
      add_message_run d items = some (d', seqs) →
      seqs = (List.range items.length).map
        (fun (i : Nat) => get_next_available_sequence_number d + (i : Int)) := by
  intro items
  induction items with
  | nil =>
    intro d d' seqs hne h
    simp only [add_message_run, Option.some.injEq, Prod.mk.injEq] at h
    rw [← h.2]
    simp
  | cons p rest ih =>
    intro d d' seqs hne h
    obtain ⟨m, now⟩ := p
    simp only [add_message_run] at h
    split at h
    · simp at h
    · rename_i x1 d1 w heq
      split at h
      · simp at h
      · rename_i x2 d2 s2 heq2
        simp only [Option.some.injEq, Prod.mk.injEq] at h
        obtain ⟨hd2, hseqs⟩ := h
        obtain ⟨hwseq, hnext, hne1⟩ := add_ok_next d m now d1 w hne heq
        have hs2 := ih d1 d2 s2 hne1 heq2
        rw [← hseqs, hs2, List.length_cons, List.range_succ_eq_map,
          List.map_cons, List.map_map]
        simp only [List.cons.injEq]
        refine ⟨?_, ?_⟩
        · rw [hwseq]
          simp
        · rw [hnext]
          refine List.map_congr_left ?_
          intro i hi
          simp only [Function.comp]
          push_cast
          omega

/-- C1: the next sequence number equals one plus the maximum sequence
number stored in any segment (with `-1` when none is stored), so a dataset
whose segments are all empty assigns 0 first, each successful
`add_message_to_dataset` writes a message carrying that next number and
bumps it by exactly one (also across segment creation), and a run of
successful calls starting from an empty dataset assigns exactly
`0, 1, 2, …` in call order. -/
theorem sequence_numbers_gapless :
    (∀ d : Dataset, get_next_available_sequence_number d =
      1 + fold_max_seq (all_messages d) (-1)) ∧
    (∀ d : Dataset, (∀ s ∈ d.segments, s.messages = []) →
      get_next_available_sequence_number d = 0) ∧
    (∀ (d : Dataset) (m : Message) (now : Nat) (d' : Dataset) (w : Message),
      d.segments ≠ [] →
      add_message_to_dataset d m now = .ok (d', w) →
      w.sequence_number = get_next_available_sequence_number d ∧
      get_next_available_sequence_number d' =
        get_next_available_sequence_number d + 1) ∧
    (∀ (items : List (Message × Nat)) (d d' : Dataset) (seqs : List Int),
      d.segments ≠ [] → (∀ s ∈ d.segments, s.messages = []) →
      add_message_run d items = some (d', seqs) →
      seqs = (List.range items.length).map (fun (i : Nat) => (i : Int))) := by
  have hempty : ∀ d : Dataset, (∀ s ∈ d.segments, s.messages = []) →
      get_next_available_sequence_number d = 0 := by
    intro d hall
    rw [next_seq_global]
    have hnil : all_messages d = [] := by
      unfold all_messages
      rw [List.flatMap_eq_nil_iff]
      exact hall
    rw [hnil]
    rfl
  refine ⟨?_, hempty, ?_, ?_⟩
  · intro d
    rw [next_seq_global]
    omega
  · intro d m now d' w hne h
    obtain ⟨h1, h2, _⟩ := add_ok_next d m now d' w hne h
    exact ⟨h1, h2⟩
  · intro items d d' seqs hne hall hrun
    rw [add_run_seqs items d d' seqs hne hrun, hempty d hall]
    refine List.map_congr_left ?_
    intro i hi
    omega

/-- Witness for C1: two successful appends to a fresh single-segment
dataset assign the sequence numbers 0 and 1. -/
theorem sequence_numbers_gapless_witness :
    ([0, 1] : List Int) = (List.range 2).map (fun (i : Nat) => (i : Int)) :=
  sequence_numbers_gapless.2.2.2
    [(⟨"a", 9, none, []⟩, 1), (⟨"b", 9, none, []⟩, 2)]
    ⟨[empty_segment]⟩
    ⟨[⟨[⟨"a", 0, some 1, []⟩, ⟨"b", 1, some 2, []⟩], [], none,
       some ⟨2, 0, 0, 0⟩⟩]⟩
    [0, 1] (by simp) (by decide) rfl

/-- C2: when the target segment's metrics report at least
`MAX_SEGMENT_SIZE` messages, a successful append creates the next segment —
copying the current last segment's code schemes and user-id list, bumping
the segment count by one — and stores the written message there with
metrics equal to zero plus that one message's contribution. -/
theorem overflow_creates_next_segment :
    ∀ (d : Dataset) (m : Message) (now : Nat) (d' : Dataset) (w : Message)
      (mm : MessagesMetrics),
      effective_segment_metrics (latest_segment d) = some mm →
      mm.messages_count ≥ MAX_SEGMENT_SIZE →
      add_message_to_dataset d m now = .ok (d', w) →
      ∃ δ, compute_segment_messages_metrics [w]
          (latest_segment d).code_schemes = some δ ∧
        d'.segments = d.segments ++
          [{ messages := [w],
             code_schemes := (latest_segment d).code_schemes,
             users := (latest_segment d).users,
             metrics := some (MessagesMetrics.zero + δ) }] ∧
        get_segment_count d' = get_segment_count d + 1 := by
  intro d m now d' w mm heff hge h
  simp only [add_message_to_dataset] at h
  split at h
  · exact absurd h (by simp)
  · split at h
    · exact absurd h (by simp)
    · rename_i x1 mmet hmet
      simp only [heff] at h
      rw [if_pos hge] at h
      simp only [Except.ok.injEq, Prod.mk.injEq] at h
      obtain ⟨hd, hw⟩ := h
      have hidx : get_segment_count d + 1 =
          (create_next_segment_tx d).segments.length := by
        simp [get_segment_count, create_segments]
      rw [hidx] at hd
      have hws := write_last_segments (create_next_segment_tx d)
        { m with last_updated := some now,
                 sequence_number := get_next_available_sequence_number d }
        (MessagesMetrics.zero + mmet) d.segments _ (create_segments d)
      rw [hd] at hws
      refine ⟨mmet, ?_, ?_, ?_⟩
      · rw [← hw]
        exact hmet
      · rw [hws]
        simp [hw]
      · unfold get_segment_count
        rw [hws]
        simp

/-- Witness for C2: a single-segment dataset whose metrics document
reports 2500 messages overflows into a new second segment holding just the
written message. -/
theorem overflow_creates_next_segment_witness :
    ∃ δ, compute_segment_messages_metrics [⟨"a", 0, some 3, []⟩]
        (latest_segment ⟨[⟨[], [], none, some ⟨2500, 0, 0, 0⟩⟩]⟩).code_schemes =
          some δ ∧
      (⟨[⟨[], [], none, some ⟨2500, 0, 0, 0⟩⟩,
         ⟨[⟨"a", 0, some 3, []⟩], [], none, some ⟨1, 0, 0, 0⟩⟩]⟩ : Dataset).segments =
        (⟨[⟨[], [], none, some ⟨2500, 0, 0, 0⟩⟩]⟩ : Dataset).segments ++
          [{ messages := [⟨"a", 0, some 3, []⟩],
             code_schemes :=
               (latest_segment ⟨[⟨[], [], none, some ⟨2500, 0, 0, 0⟩⟩]⟩).code_schemes,
             users := (latest_segment ⟨[⟨[], [], none, some ⟨2500, 0, 0, 0⟩⟩]⟩).users,
             metrics := some (MessagesMetrics.zero + δ) }] ∧
      get_segment_count
          ⟨[⟨[], [], none, some ⟨2500, 0, 0, 0⟩⟩,
            ⟨[⟨"a", 0, some 3, []⟩], [], none, some ⟨1, 0, 0, 0⟩⟩]⟩ =
        get_segment_count ⟨[⟨[], [], none, some ⟨2500, 0, 0, 0⟩⟩]⟩ + 1 :=
  overflow_creates_next_segment ⟨[⟨[], [], none, some ⟨2500, 0, 0, 0⟩⟩]⟩
    ⟨"a", 5, none, []⟩ 3
    ⟨[⟨[], [], none, some ⟨2500, 0, 0, 0⟩⟩,
      ⟨[⟨"a", 0, some 3, []⟩], [], none, some ⟨1, 0, 0, 0⟩⟩]⟩
    ⟨"a", 0, some 3, []⟩ ⟨2500, 0, 0, 0⟩ rfl (by decide) rfl

/-! ## Incremental fetch never duplicates (C3) -/

theorem lu_max_step_none_lu (acc : Option Nat) (m : Message)
    (h : m.last_updated = none) : lu_max_step acc m = acc := by
  simp [lu_max_step, h]

theorem lu_max_step_some_none (m : Message) (t : Nat)
    (h : m.last_updated = some t) : lu_max_step none m = some t := by
  simp [lu_max_step, h]

theorem lu_max_step_some_some (m : Message) (t a : Nat)
    (h : m.last_updated = some t) : lu_max_step (some a) m = some (max a t) := by
  simp [lu_max_step, h]

theorem lu_foldl_some (ms : List Message) :
    ∀ a : Nat, ∃ v, ms.foldl lu_max_step (some a) = some v ∧ a ≤ v := by
  induction ms with
  | nil =>
    intro a
    exact ⟨a, rfl, le_refl a⟩
  | cons m ms ih =>
    intro a
    rw [List.foldl_cons]
    cases hm : m.last_updated with
    | none =>
      rw [lu_max_step_none_lu _ _ hm]
      exact ih a
    | some t =>
      rw [lu_max_step_some_some _ _ _ hm]
      obtain ⟨v, hv, hle⟩ := ih (max a t)
      exact ⟨v, hv, le_trans (le_max_left a t) hle⟩

theorem lu_foldl_le (ms : List Message) :
    ∀ (acc : Option Nat) (m : Message) (t : Nat), m ∈ ms →
      m.last_updated = some t →
      ∃ v, ms.foldl lu_max_step acc = some v ∧ t ≤ v := by
  induction ms with
  | nil =>
    intro acc m t hmem
    simp at hmem
  | cons m0 ms ih =>
    intro acc m t hmem hlu
    rw [List.foldl_cons]
    rcases List.mem_cons.mp hmem with rfl | htl
    · cases acc with
      | none =>
        rw [lu_max_step_some_none _ _ hlu]
        exact lu_foldl_some ms t
      | some a =>
        rw [lu_max_step_some_some _ _ _ hlu]
        obtain ⟨v, hv, hle⟩ := lu_foldl_some ms (max a t)
        exact ⟨v, hv, le_trans (le_max_right a t) hle⟩
    · exact ih (lu_max_step acc m0) m t htl hlu

/-- Any timestamped member of a fetched list is bounded by the list's
maximum watermark. -/
theorem max_lu_bound (ms : List Message) (m : Message) (t : Nat)
    (hmem : m ∈ ms) (hlu : m.last_updated = some t) :
    ∃ v, max_lu ms = some v ∧ t ≤ v :=
  lu_foldl_le ms none m t hmem hlu

theorem lu_foldl_none (ms : List Message) :
    ∀ acc : Option Nat, ms.foldl lu_max_step acc = none →
      acc = none ∧ ∀ m ∈ ms, m.last_updated = none := by
  induction ms with
  | nil =>
    intro acc h
    exact ⟨h, by simp⟩
  | cons m0 ms ih =>
    intro acc h
    rw [List.foldl_cons] at h
    obtain ⟨hstep, htail⟩ := ih (lu_max_step acc m0) h
    have hm0 : m0.last_updated = none ∧ acc = none := by
      cases hlu : m0.last_updated with
      | none =>
        rw [lu_max_step_none_lu _ _ hlu] at hstep
        exact ⟨rfl, hstep⟩
      | some t =>
        cases acc with
        | none =>
          rw [lu_max_step_some_none _ _ hlu] at hstep
          simp at hstep
        | some a =>
          rw [lu_max_step_some_some _ _ _ hlu] at hstep
          simp at hstep
    refine ⟨hm0.2, ?_⟩
    intro m hm
    rcases List.mem_cons.mp hm with rfl | htl
    · exact hm0.1
    · exact htail m htl

/-- When a fetch saw no timestamp at all, every fetched message lacks
`last_updated`. -/
theorem max_lu_none (ms : List Message) (h : max_lu ms = none) :
    ∀ m ∈ ms, m.last_updated = none :=
  (lu_foldl_none ms none h).2

theorem mem_get_segment_messages (s : Segment) (a b : Option Nat)
    (m : Message) (hm : m ∈ get_segment_messages s a b) :
    m ∈ s.messages ∧ lu_after a m = true ∧ lu_before b m = true := by
  obtain ⟨h1, h2⟩ := List.mem_filter.mp hm
  rw [Bool.and_eq_true] at h2
  exact ⟨h1, h2.1, h2.2⟩

theorem lu_after_some (v : Nat) (m : Message)
    (h : lu_after (some v) m = true) :
    ∃ t, m.last_updated = some t ∧ v < t := by
  unfold lu_after at h
  cases hlu : m.last_updated with
  | none => rw [hlu] at h; simp at h
  | some t =>
    rw [hlu] at h
    simp only [decide_eq_true_eq] at h
    exact ⟨t, rfl, h⟩

theorem segment_two_pass_subset (after dfirst dlast : Option Nat)
    (s : Segment) : segment_two_pass after dfirst dlast s ⊆ s.messages := by
  intro m hm
  simp only [segment_two_pass] at hm
  cases hml : max_lu (get_segment_messages s after none) with
  | some v =>
    simp only [hml] at hm
    rcases List.mem_append.mp hm with h1 | h2
    · exact (List.filter_sublist _).subset h1
    · exact (List.filter_sublist _).subset h2
  | none =>
    simp only [hml] at hm
    cases dfirst with
    | none => exact (List.filter_sublist _).subset hm
    | some w =>
      rcases List.mem_append.mp hm with h1 | h2
      · exact (List.filter_sublist _).subset h1
      · exact (List.filter_sublist _).subset h2

theorem segment_two_pass_nodup (after dfirst dlast : Option Nat) (s : Segment)
    (hnd : (s.messages.map (fun m => m.message_id)).Nodup) :
    ((segment_two_pass after dfirst dlast s).map
      (fun m => m.message_id)).Nodup := by
  have hfetch_nd : ∀ a b : Option Nat,
      ((get_segment_messages s a b).map (fun m => m.message_id)).Nodup :=
    fun a b => (((List.filter_sublist _).map _).nodup hnd)
  simp only [segment_two_pass]
  cases hml : max_lu (get_segment_messages s after none) with
  | some v =>
    simp only [hml]
    rw [List.map_append, List.nodup_append]
    refine ⟨hfetch_nd _ _, hfetch_nd _ _, ?_⟩
    intro x hx1 hx2
    obtain ⟨a, ha, hax⟩ := List.mem_map.mp hx1
    obtain ⟨b, hb, hbx⟩ := List.mem_map.mp hx2
    have hamem := (mem_get_segment_messages _ _ _ _ ha).1
    obtain ⟨hbmem, hbafter, _⟩ := mem_get_segment_messages _ _ _ _ hb
    have hab : a = b :=
      List.inj_on_of_nodup_map hnd hamem hbmem (by rw [hax, hbx])
    obtain ⟨t, hbt, hvt⟩ := lu_after_some v b hbafter
    obtain ⟨u, hu, htu⟩ := max_lu_bound _ a t ha (by rw [hab]; exact hbt)
    rw [hml] at hu
    have : v = u := by
      exact Option.some.inj hu
    omega
  | none =>
    simp only [hml]
    cases dfirst with
    | none => exact hfetch_nd _ _
    | some w =>
      rw [List.map_append, List.nodup_append]
      refine ⟨hfetch_nd _ _, hfetch_nd _ _, ?_⟩
      intro x hx1 hx2
      obtain ⟨a, ha, hax⟩ := List.mem_map.mp hx1
      obtain ⟨b, hb, hbx⟩ := List.mem_map.mp hx2
      have hamem := (mem_get_segment_messages _ _ _ _ ha).1
      obtain ⟨hbmem, hbafter, _⟩ := mem_get_segment_messages _ _ _ _ hb
      have hab : a = b :=
        List.inj_on_of_nodup_map hnd hamem hbmem (by rw [hax, hbx])
      obtain ⟨t, hbt, hvt⟩ := lu_after_some w b hbafter
      have hanone : a.last_updated = none := max_lu_none _ hml a ha
      rw [hab, hbt] at hanone
      exact Option.noConfusion hanone

theorem multi_nodup (segs : List Segment) (after : Option Nat)
    (hnd : ((segs.flatMap (fun s => s.messages)).map
      (fun m => m.message_id)).Nodup) :
    ((get_dataset_messages_multi segs after).map
      (fun m => m.message_id)).Nodup := by
  rw [List.map_flatMap] at hnd
  rw [List.flatMap_def, List.nodup_flatten] at hnd
  obtain ⟨hea, hpw⟩ := hnd
  simp only [get_dataset_messages_multi]
  rw [List.map_flatten, List.map_map, List.nodup_flatten]
  constructor
  · intro l hl
    obtain ⟨s, hs, hsl⟩ := List.mem_map.mp hl
    rw [← hsl]
    exact segment_two_pass_nodup _ _ _ s
      (hea (s.messages.map (fun m => m.message_id)) (List.mem_map_of_mem _ hs))
  · rw [List.pairwise_map]
    rw [List.pairwise_map] at hpw
    refine hpw.imp ?_
    intro a b hdisj
    intro x hx1 hx2
    exact hdisj
      (List.map_subset (fun m => m.message_id)
        (segment_two_pass_subset _ _ _ a) hx1)
      (List.map_subset (fun m => m.message_id)
        (segment_two_pass_subset _ _ _ b) hx2)

/-- C3: on any valid dataset state (message ids unique across all
segments), `get_dataset_messages` succeeds — the re-scan over
`(segmentMax, datasetLast]` never re-fetches a first-pass message, so the
duplicate-id assertion at the end of the merge cannot fire — and the
returned list carries no duplicate message id. -/
theorem fetch_never_duplicates :
    ∀ (d : Dataset) (after : Option Nat),
      ((d.segments.flatMap (fun s => s.messages)).map
        (fun m => m.message_id)).Nodup →
      ∃ l, get_dataset_messages d after = some l ∧
        (l.map (fun m => m.message_id)).Nodup := by
  intro d after hnd
  simp only [get_dataset_messages]
  by_cases hc : get_segment_count d = 1
  · rw [if_pos hc]
    refine ⟨_, rfl, ?_⟩
    unfold get_segment_count at hc
    obtain ⟨s, hs⟩ := List.length_eq_one.mp hc
    rw [hs]
    have hsnd : (s.messages.map (fun m => m.message_id)).Nodup := by
      rw [hs] at hnd
      simpa using hnd
    exact ((List.filter_sublist _).map _).nodup hsnd
  · rw [if_neg hc]
    have hmn := multi_nodup d.segments after hnd
    rw [if_pos hmn]
    exact ⟨_, rfl, hmn⟩

/-- Witness for C3: a two-segment dataset with unique message ids is
fetched without tripping the duplicate assertion. -/
theorem fetch_never_duplicates_witness :
    ∃ l, get_dataset_messages
        ⟨[⟨[⟨"a1", 0, some 5, []⟩, ⟨"a2", 1, none, []⟩], [], none, none⟩,
          ⟨[⟨"b1", 2, some 9, []⟩], [], none, none⟩]⟩ none = some l ∧
      (l.map (fun m => m.message_id)).Nodup :=
  fetch_never_duplicates
    ⟨[⟨[⟨"a1", 0, some 5, []⟩, ⟨"a2", 1, none, []⟩], [], none, none⟩,
      ⟨[⟨"b1", 2, some 9, []⟩], [], none, none⟩]⟩ none (by decide)

end CodaV2
